import Mathlib

/-!
Verification of `src/unixfs/cat.rs` from the `rust-ipfs` repository.

The Rust function `cat` drives a UnixFS file traversal: it fetches the root
block from the block source, hands its bytes to the file visitor's `start`
operation, and then loops fetching the first pending link and feeding the
fetched bytes to `continue_walk`, yielding every non-empty chunk and
translating every failure into a `TraversalFailed` value.

The stream body is embedded as a small-step driver machine.  One
`catStep` is one segment of the generator: from the initial state it performs
the root fetch and the visitor `start` call (lines 37-62 of the source); from
an active state it performs one iteration of the loop (lines 64-94).  A step
records the items it yields, the successor state, the identifiers it fetched
through the block source, and how many visitor stepping operations
(`start` / `continue_walk`) it performed.  `catRun` iterates steps under a
fuel bound, and `cat` runs from the initial state, mirroring the public
stream.  The block source and the visitor are external collaborators of the
Rust code, so they enter as parameters: the visitor as a record of its
`start`, `pending_links` and `continue_walk` operations, the block source as
a function from identifier to fetched block or load error.
-/

namespace RustIpfs

/-- Content identifier (`Cid` in the source); equality is by value. -/
abbrev Cid := Nat

/-- A half-open byte interval, `Range<u64>` in the source. -/
structure ByteRange where
  start : Nat
  stop : Nat
deriving Repr, DecidableEq

/-- `bitswap::Block`: the identifier echoed by the block source together with
the raw block bytes. -/
structure Block where
  cid : Cid
  data : List Nat
deriving Repr, DecidableEq

/-- `TraversalFailed` from the source: failure to load a block, or failure to
process a loaded block, each carrying the implicated identifier.  `ε` stands
for the opaque loading error (`Error`), `φ` for the structured walking error
(`FileReadFailed`). -/
inductive TraversalFailed (ε φ : Type) where
  | Loading (cid : Cid) (e : ε)
  | Walking (cid : Cid) (e : φ)
deriving Repr, DecidableEq

/-- `std::error::Error::source` for `TraversalFailed`: `Loading` returns no
structured source (its cause is opaque), `Walking` exposes its cause. -/
def TraversalFailed.source {ε φ : Type} : TraversalFailed ε φ → Option φ
  | .Loading _ _ => none
  | .Walking _ e => some e

/-- The file visitor interface consumed by `cat` (`IdleFileVisit` /
`FileVisit` from `ipfs-unixfs`): `start` receives the optional target range
(the source applies `with_target_range` before starting) and the root bytes,
returning a chunk, file metadata `μ`, and an optional continuation state `σ`;
`pendingLinks` reports the next pending link and the remaining ones;
`continueWalk` consumes a block's bytes from an active state. -/
structure DagVisitor (σ μ ε φ : Type) where
  start : Option ByteRange → List Nat → Except φ (List Nat × μ × Option σ)
  pendingLinks : σ → Cid × List Cid
  continueWalk : σ → List Nat → Except φ (List Nat × Option σ)

/-- The block source (`Ipfs::get_block`): identifier to fetched block or
opaque load error. -/
abbrev BlockSource (ε : Type) := Cid → Except ε Block

/-- One item of the produced stream: `Result<Vec<u8>, TraversalFailed>`. -/
abbrev Item (ε φ : Type) := Except (TraversalFailed ε φ) (List Nat)

/-- Driver progress: before the root fetch, holding an active visitor state,
terminated after the visitor signalled completion, or terminated after an
error was yielded. -/
inductive DriverState (σ : Type) where
  | idle
  | active (v : σ)
  | finished
  | failed
deriving Repr, DecidableEq

/-- What one driver step produced: yielded items, successor state, block
identifiers requested from the block source, and the number of visitor
stepping calls (`start` or `continue_walk`) performed. -/
structure StepOut (σ ε φ : Type) where
  items : List (Item ε φ)
  next : DriverState σ
  fetched : List Cid
  visitorCalls : Nat
deriving Repr

/-- One step of the `cat` driver, translated from the stream body.

From `idle` (source lines 37-62): fetch the root block; on failure yield
`Loading(rootId, e)`; otherwise call `start` on the block's bytes; on parse
failure yield `Walking` carrying the *fetched block's* cid (the source
shadows `cid` by destructuring the block); on success yield the chunk when
non-empty and continue with the optional visitor state.

From `active v` (source lines 64-94): fetch the first pending link; on
failure yield `Loading` carrying the requested link; otherwise call
`continue_walk`; on failure yield `Walking` carrying the fetched block's cid;
on success yield the chunk when non-empty and continue. -/
def catStep {σ μ ε φ : Type} (V : DagVisitor σ μ ε φ) (source : BlockSource ε)
    (rootId : Cid) (range : Option ByteRange) :
    DriverState σ → StepOut σ ε φ
  | .idle =>
    match source rootId with
    | .error e => ⟨[.error (.Loading rootId e)], .failed, [rootId], 0⟩
    | .ok blk =>
      match V.start range blk.data with
      | .ok (bytes, _, ov) =>
        ⟨if bytes.isEmpty then [] else [.ok bytes],
          (match ov with | some v => .active v | none => .finished),
          [rootId], 1⟩
      | .error e => ⟨[.error (.Walking blk.cid e)], .failed, [rootId], 1⟩
  | .active v =>
    match source (V.pendingLinks v).1 with
    | .error e =>
      ⟨[.error (.Loading (V.pendingLinks v).1 e)], .failed,
        [(V.pendingLinks v).1], 0⟩
    | .ok blk =>
      match V.continueWalk v blk.data with
      | .ok (bytes, ov) =>
        ⟨if bytes.isEmpty then [] else [.ok bytes],
          (match ov with | some v => .active v | none => .finished),
          [(V.pendingLinks v).1], 1⟩
      | .error e =>
        ⟨[.error (.Walking blk.cid e)], .failed, [(V.pendingLinks v).1], 1⟩
  | .finished => ⟨[], .finished, [], 0⟩
  | .failed => ⟨[], .failed, [], 0⟩

/-- Accumulated outcome of running the driver: all items yielded in order,
the final driver state, all identifiers fetched, and the total number of
visitor stepping calls. -/
structure RunOut (σ ε φ : Type) where
  items : List (Item ε φ)
  final : DriverState σ
  fetched : List Cid
  visitorCalls : Nat
deriving Repr

/-- Sequencing a step before a run. -/
def RunOut.seq {σ ε φ : Type} (o : StepOut σ ε φ) (r : RunOut σ ε φ) :
    RunOut σ ε φ :=
  ⟨o.items ++ r.items, r.final, o.fetched ++ r.fetched,
    o.visitorCalls + r.visitorCalls⟩

/-- Run the driver for at most `fuel` steps.  The two terminal states
(`finished` after the visitor returned no continuation, `failed` after an
error item) absorb: the generator has returned and produces nothing more. -/
def catRun {σ μ ε φ : Type} (V : DagVisitor σ μ ε φ) (source : BlockSource ε)
    (rootId : Cid) (range : Option ByteRange) :
    Nat → DriverState σ → RunOut σ ε φ
  | 0, st => ⟨[], st, [], 0⟩
  | _ + 1, .finished => ⟨[], .finished, [], 0⟩
  | _ + 1, .failed => ⟨[], .failed, [], 0⟩
  | fuel + 1, .idle =>
    RunOut.seq (catStep V source rootId range .idle)
      (catRun V source rootId range fuel
        (catStep V source rootId range .idle).next)
  | fuel + 1, .active v =>
    RunOut.seq (catStep V source rootId range (.active v))
      (catRun V source rootId range fuel
        (catStep V source rootId range (.active v)).next)

/-- The public `cat` operation: run the driver from the initial state. -/
def cat {σ μ ε φ : Type} (V : DagVisitor σ μ ε φ) (source : BlockSource ε)
    (rootId : Cid) (range : Option ByteRange) (fuel : Nat) : RunOut σ ε φ :=
  catRun V source rootId range fuel .idle

/-- Concatenation, in emission order, of the successful chunks of an item
list. -/
def okBytes {ε φ : Type} : List (Item ε φ) → List Nat
  | [] => []
  | .ok c :: rest => c ++ okBytes rest
  | .error _ :: rest => okBytes rest

/-- The bytes a request denotes: the whole file when unranged, otherwise the
half-open interval of file offsets. -/
def targetBytes (file : List Nat) : Option ByteRange → List Nat
  | none => file
  | some r => ((file.drop r.start).take (r.stop - r.start))

section Lemmas

variable {σ μ ε φ : Type} (V : DagVisitor σ μ ε φ) (source : BlockSource ε)
variable (rootId : Cid) (range : Option ByteRange)

/-- A run from the `finished` state produces nothing. -/
theorem catRun_finished (fuel : Nat) :
    catRun V source rootId range fuel .finished = ⟨[], .finished, [], 0⟩ := by
  cases fuel <;> rfl

/-- A run from the `failed` state produces nothing. -/
theorem catRun_failed (fuel : Nat) :
    catRun V source rootId range fuel .failed = ⟨[], .failed, [], 0⟩ := by
  cases fuel <;> rfl

/-- With positive fuel and a non-terminal state, a run is a step followed by
a run from the step's successor. -/
theorem catRun_succ (fuel : Nat) (st : DriverState σ)
    (h : st = .idle ∨ ∃ v, st = .active v) :
    catRun V source rootId range (fuel + 1) st =
      RunOut.seq (catStep V source rootId range st)
        (catRun V source rootId range fuel
          (catStep V source rootId range st).next) := by
  rcases h with h | ⟨v, h⟩ <;> subst h <;> rfl

/-- Terminal states stay terminal, non-`failed` states cannot step out of a
run as `failed` without yielding; more precisely a run splits at any step
count. -/
theorem catRun_add (m n : Nat) (st : DriverState σ) :
    catRun V source rootId range (m + n) st =
      RunOut.seq
        ⟨(catRun V source rootId range m st).items,
          (catRun V source rootId range m st).final,
          (catRun V source rootId range m st).fetched,
          (catRun V source rootId range m st).visitorCalls⟩
        (catRun V source rootId range n
          (catRun V source rootId range m st).final) := by
  induction m generalizing st with
  | zero =>
    simp [catRun, RunOut.seq]
  | succ m ih =>
    cases st with
    | finished =>
      rw [Nat.succ_add]
      simp [catRun, RunOut.seq, catRun_finished]
    | failed =>
      rw [Nat.succ_add]
      simp [catRun, RunOut.seq, catRun_failed]
    | idle =>
      rw [Nat.succ_add, catRun_succ V source rootId range _ _ (Or.inl rfl),
        catRun_succ V source rootId range _ _ (Or.inl rfl), ih]
      simp [RunOut.seq, Nat.add_assoc]
    | active v =>
      rw [Nat.succ_add,
        catRun_succ V source rootId range _ _ (Or.inr ⟨v, rfl⟩),
        catRun_succ V source rootId range _ _ (Or.inr ⟨v, rfl⟩), ih]
      simp [RunOut.seq, Nat.add_assoc]

/-- Step equation: root block fetch failure. -/
theorem catStep_idle_loadErr {e : ε} (hs : source rootId = .error e) :
    catStep V source rootId range .idle =
      ⟨[.error (.Loading rootId e)], .failed, [rootId], 0⟩ := by
  simp [catStep, hs]

/-- Step equation: root block fetched, visitor start succeeded. -/
theorem catStep_idle_ok {blk : Block} {bytes : List Nat} {m : μ}
    {ov : Option σ} (hs : source rootId = .ok blk)
    (hv : V.start range blk.data = .ok (bytes, m, ov)) :
    catStep V source rootId range .idle =
      ⟨if bytes.isEmpty then [] else [.ok bytes],
        (match ov with | some v => .active v | none => .finished),
        [rootId], 1⟩ := by
  cases ov <;> simp [catStep, hs, hv]

/-- Step equation: root block fetched, visitor start failed. -/
theorem catStep_idle_startErr {blk : Block} {e : φ}
    (hs : source rootId = .ok blk)
    (hv : V.start range blk.data = .error e) :
    catStep V source rootId range .idle =
      ⟨[.error (.Walking blk.cid e)], .failed, [rootId], 1⟩ := by
  simp [catStep, hs, hv]

/-- Step equation: pending-link fetch failure. -/
theorem catStep_active_loadErr {v : σ} {e : ε}
    (hs : source (V.pendingLinks v).1 = .error e) :
    catStep V source rootId range (.active v) =
      ⟨[.error (.Loading (V.pendingLinks v).1 e)], .failed,
        [(V.pendingLinks v).1], 0⟩ := by
  simp [catStep, hs]

/-- Step equation: pending link fetched, continuation succeeded. -/
theorem catStep_active_ok {v : σ} {blk : Block} {bytes : List Nat}
    {ov : Option σ} (hs : source (V.pendingLinks v).1 = .ok blk)
    (hv : V.continueWalk v blk.data = .ok (bytes, ov)) :
    catStep V source rootId range (.active v) =
      ⟨if bytes.isEmpty then [] else [.ok bytes],
        (match ov with | some w => .active w | none => .finished),
        [(V.pendingLinks v).1], 1⟩ := by
  cases ov <;> simp [catStep, hs, hv]

/-- Step equation: pending link fetched, continuation failed. -/
theorem catStep_active_walkErr {v : σ} {blk : Block} {e : φ}
    (hs : source (V.pendingLinks v).1 = .ok blk)
    (hv : V.continueWalk v blk.data = .error e) :
    catStep V source rootId range (.active v) =
      ⟨[.error (.Walking blk.cid e)], .failed, [(V.pendingLinks v).1], 1⟩ := by
  simp [catStep, hs, hv]

/-- Every step either continues without failure, yielding nothing or one
non-empty chunk, or moves to `failed` yielding exactly one error item. -/
theorem catStep_cases (st : DriverState σ) (hst : st ≠ .failed) :
    ((catStep V source rootId range st).next ≠ .failed ∧
      ((catStep V source rootId range st).items = [] ∨
        ∃ c, c ≠ [] ∧ (catStep V source rootId range st).items = [.ok c])) ∨
    ((catStep V source rootId range st).next = .failed ∧
      ∃ e, (catStep V source rootId range st).items = [.error e]) := by
  cases st with
  | idle =>
    cases hs : source rootId with
    | error e =>
      rw [catStep_idle_loadErr V source rootId range hs]
      exact Or.inr ⟨rfl, .Loading rootId e, rfl⟩
    | ok blk =>
      cases hv : V.start range blk.data with
      | error e =>
        rw [catStep_idle_startErr V source rootId range hs hv]
        exact Or.inr ⟨rfl, .Walking blk.cid e, rfl⟩
      | ok out =>
        obtain ⟨bytes, m, ov⟩ := out
        rw [catStep_idle_ok V source rootId range hs hv]
        refine Or.inl ⟨?_, ?_⟩
        · cases ov <;> simp
        · by_cases hb : bytes.isEmpty
          · simp [hb]
          · refine Or.inr ⟨bytes, ?_, by simp [hb]⟩
            simpa [List.isEmpty_iff] using hb
  | active v =>
    cases hs : source (V.pendingLinks v).1 with
    | error e =>
      rw [catStep_active_loadErr V source rootId range hs]
      exact Or.inr ⟨rfl, .Loading (V.pendingLinks v).1 e, rfl⟩
    | ok blk =>
      cases hv : V.continueWalk v blk.data with
      | error e =>
        rw [catStep_active_walkErr V source rootId range hs hv]
        exact Or.inr ⟨rfl, .Walking blk.cid e, rfl⟩
      | ok out =>
        obtain ⟨bytes, ov⟩ := out
        rw [catStep_active_ok V source rootId range hs hv]
        refine Or.inl ⟨?_, ?_⟩
        · cases ov <;> simp
        · by_cases hb : bytes.isEmpty
          · simp [hb]
          · refine Or.inr ⟨bytes, ?_, by simp [hb]⟩
            simpa [List.isEmpty_iff] using hb
  | finished =>
    refine Or.inl ⟨?_, Or.inl rfl⟩
    simp [catStep]
  | failed => exact absurd rfl hst

/-- Sequencing preserves the item-shape invariant when the step does not
fail. -/
theorem shape_seq (o : StepOut σ ε φ) (r : RunOut σ ε φ)
    (ho : o.items = [] ∨ ∃ c, c ≠ [] ∧ o.items = [.ok c])
    (hr : (∃ oks : List (List Nat),
            r.items = oks.map Except.ok ∧ r.final ≠ .failed) ∨
          (∃ oks : List (List Nat), ∃ e : TraversalFailed ε φ,
            r.items = oks.map Except.ok ++ [.error e] ∧ r.final = .failed)) :
    (∃ oks : List (List Nat),
      (RunOut.seq o r).items = oks.map Except.ok ∧
      (RunOut.seq o r).final ≠ .failed) ∨
    (∃ oks : List (List Nat), ∃ e : TraversalFailed ε φ,
      (RunOut.seq o r).items = oks.map Except.ok ++ [.error e] ∧
      (RunOut.seq o r).final = .failed) := by
  rcases ho with ho | ⟨c, hc, ho⟩ <;>
    rcases hr with ⟨oks, hoks, hfin⟩ | ⟨oks, e, hoks, hfin⟩
  · exact Or.inl ⟨oks, by simp [RunOut.seq, ho, hoks], hfin⟩
  · exact Or.inr ⟨oks, e, by simp [RunOut.seq, ho, hoks], hfin⟩
  · exact Or.inl ⟨c :: oks, by simp [RunOut.seq, ho, hoks], hfin⟩
  · exact Or.inr ⟨c :: oks, e, by simp [RunOut.seq, ho, hoks], hfin⟩

/-- Shape invariant: from any non-failed state, a run's items are successful
chunks with one trailing error exactly when the run ends `failed`. -/
theorem catRun_shape (fuel : Nat) (st : DriverState σ) (hst : st ≠ .failed) :
    (∃ oks : List (List Nat),
      (catRun V source rootId range fuel st).items = oks.map Except.ok ∧
      (catRun V source rootId range fuel st).final ≠ .failed) ∨
    (∃ oks : List (List Nat), ∃ e : TraversalFailed ε φ,
      (catRun V source rootId range fuel st).items
        = oks.map Except.ok ++ [.error e] ∧
      (catRun V source rootId range fuel st).final = .failed) := by
  induction fuel generalizing st with
  | zero => exact Or.inl ⟨[], rfl, hst⟩
  | succ fuel ih =>
    cases st with
    | finished =>
      rw [catRun_finished]
      exact Or.inl ⟨[], rfl, fun h => by cases h⟩
    | failed => exact absurd rfl hst
    | idle =>
      rw [catRun_succ V source rootId range fuel .idle (Or.inl rfl)]
      rcases catStep_cases V source rootId range .idle (fun h => by cases h)
        with ⟨hnext, hitems⟩ | ⟨hnext, e, hitems⟩
      · exact shape_seq _ _ hitems (ih _ hnext)
      · rw [hnext, catRun_failed]
        exact Or.inr ⟨[], e, by simp [RunOut.seq, hitems], rfl⟩
    | active v =>
      rw [catRun_succ V source rootId range fuel (.active v) (Or.inr ⟨v, rfl⟩)]
      rcases catStep_cases V source rootId range (.active v)
          (fun h => by cases h)
        with ⟨hnext, hitems⟩ | ⟨hnext, e, hitems⟩
      · exact shape_seq _ _ hitems (ih _ hnext)
      · rw [hnext, catRun_failed]
        exact Or.inr ⟨[], e, by simp [RunOut.seq, hitems], rfl⟩

/-- A successful item yielded by one step is never the empty chunk. -/
theorem catStep_ok_nonempty (st : DriverState σ) (c : List Nat)
    (hc : Except.ok c ∈ (catStep V source rootId range st).items) : c ≠ [] := by
  cases st with
  | failed => cases hc
  | finished => cases hc
  | idle =>
    rcases catStep_cases V source rootId range .idle (fun h => by cases h)
      with ⟨_, hitems | ⟨d, hd, hitems⟩⟩ | ⟨_, e, hitems⟩ <;>
      rw [hitems] at hc
    · cases hc
    · rcases List.mem_singleton.mp hc with h
      cases Except.ok.inj h
      exact hd
    · rcases List.mem_singleton.mp hc with h
      cases h
  | active v =>
    rcases catStep_cases V source rootId range (.active v) (fun h => by cases h)
      with ⟨_, hitems | ⟨d, hd, hitems⟩⟩ | ⟨_, e, hitems⟩ <;>
      rw [hitems] at hc
    · cases hc
    · rcases List.mem_singleton.mp hc with h
      cases Except.ok.inj h
      exact hd
    · rcases List.mem_singleton.mp hc with h
      cases h

/-- A successful item yielded by a whole run is never the empty chunk. -/
theorem catRun_ok_nonempty (fuel : Nat) (st : DriverState σ) (c : List Nat)
    (hc : Except.ok c ∈ (catRun V source rootId range fuel st).items) :
    c ≠ [] := by
  induction fuel generalizing st with
  | zero => cases hc
  | succ fuel ih =>
    cases st with
    | finished => rw [catRun_finished] at hc; cases hc
    | failed => rw [catRun_failed] at hc; cases hc
    | idle =>
      rw [catRun_succ V source rootId range fuel .idle (Or.inl rfl)] at hc
      rcases List.mem_append.mp hc with h | h
      · exact catStep_ok_nonempty V source rootId range _ c h
      · exact ih _ h
    | active v =>
      rw [catRun_succ V source rootId range fuel (.active v)
        (Or.inr ⟨v, rfl⟩)] at hc
      rcases List.mem_append.mp hc with h | h
      · exact catStep_ok_nonempty V source rootId range _ c h
      · exact ih _ h

/-- `okBytes` distributes over append. -/
theorem okBytes_append (xs ys : List (Item ε φ)) :
    okBytes (xs ++ ys) = okBytes xs ++ okBytes ys := by
  induction xs with
  | nil => rfl
  | cons x xs ih => cases x <;> simp [okBytes, ih]

/-- The bytes of the conditional emission of one chunk. -/
theorem okBytes_emit (c : List Nat) :
    okBytes (if c.isEmpty then ([] : List (Item ε φ)) else [.ok c]) = c := by
  by_cases hb : c.isEmpty
  · rw [if_pos hb, List.isEmpty_iff.mp hb]
    rfl
  · rw [if_neg hb]
    simp [okBytes]

/-- For an in-bounds range, the requested bytes have length `stop − start`
and are the corresponding subrange of the whole file. -/
theorem targetBytes_inbounds (file : List Nat) (a b : Nat)
    (hb : b ≤ file.length) :
    (targetBytes file (some ⟨a, b⟩)).length = b - a ∧
    targetBytes file (some ⟨a, b⟩) =
      ((targetBytes file none).drop a).take (b - a) := by
  constructor
  · simp only [targetBytes, List.length_take, List.length_drop]
    omega
  · rfl

/-- Under the §4.3 visitor guarantees — expressed by a residual-bytes
function `rem` and a decreasing measure `size` — a run from an active state
terminates, and its successful chunks concatenate to exactly the residual
bytes of that state. -/
theorem catRun_active_exact (rem : σ → List Nat) (size : σ → Nat)
    (hstep : ∀ v : σ, ∃ b : Block, ∃ c : List Nat, ∃ ov : Option σ,
      source (V.pendingLinks v).1 = .ok b ∧
      V.continueWalk v b.data = .ok (c, ov) ∧
      c ++ (match ov with | some w => rem w | none => []) = rem v ∧
      (∀ w, ov = some w → size w < size v)) :
    ∀ fuel (v : σ), size v < fuel →
      (catRun V source rootId range fuel (.active v)).final = .finished ∧
      okBytes (catRun V source rootId range fuel (.active v)).items =
        rem v := by
  intro fuel
  induction fuel with
  | zero => exact fun v hv => absurd hv (Nat.not_lt_zero _)
  | succ fuel ih =>
    intro v hv
    obtain ⟨b, c, ov, hs, hw, hcat, hdec⟩ := hstep v
    rw [catRun_succ V source rootId range fuel (.active v) (Or.inr ⟨v, rfl⟩),
      catStep_active_ok V source rootId range hs hw]
    cases ov with
    | none =>
      rw [show ((⟨if c.isEmpty then [] else [.ok c],
          (match (none : Option σ) with
            | some w => DriverState.active w | none => .finished),
          [(V.pendingLinks v).1], 1⟩ : StepOut σ ε φ)).next = .finished
        from rfl, catRun_finished]
      refine ⟨rfl, ?_⟩
      show okBytes ((if c.isEmpty then [] else [.ok c]) ++ []) = rem v
      rw [okBytes_append, okBytes_emit]
      simpa [okBytes] using hcat
    | some w =>
      rw [show ((⟨if c.isEmpty then [] else [.ok c],
          (match (some w : Option σ) with
            | some w => DriverState.active w | none => .finished),
          [(V.pendingLinks v).1], 1⟩ : StepOut σ ε φ)).next = .active w
        from rfl]
      obtain ⟨hfin, hbytes⟩ := ih w (by
        have := hdec w rfl
        omega)
      refine ⟨hfin, ?_⟩
      show okBytes ((if c.isEmpty then [] else [.ok c]) ++
        (catRun V source rootId range fuel (.active w)).items) = rem v
      rw [okBytes_append, okBytes_emit, hbytes]
      exact hcat

/-- Claim C1: for every file DAG and request, assuming the §4.3 visitor
guarantees (expressed by a residual-bytes function `rem` with a decreasing
measure `size`: every step's chunk is the next piece of the requested bytes,
and the residue is empty exactly when no continuation is returned), the
concatenation in emission order of all successful chunks of `cat` equals the
requested byte range of the file (the whole file when unranged); for an
in-bounds range `[a, b)` the output length is `b − a` and the output is the
`[a, b)` subrange of the no-range output. -/
theorem cat_range_exact (file : List Nat)
    (rem : σ → List Nat) (size : σ → Nat)
    (blk : Block) (c₀ : List Nat) (m : μ) (ov : Option σ)
    (hroot : source rootId = .ok blk)
    (hstart : V.start range blk.data = .ok (c₀, m, ov))
    (hsplit : c₀ ++ (match ov with | some v => rem v | none => []) =
      targetBytes file range)
    (hstep : ∀ v : σ, ∃ b : Block, ∃ c : List Nat, ∃ ov2 : Option σ,
      source (V.pendingLinks v).1 = .ok b ∧
      V.continueWalk v b.data = .ok (c, ov2) ∧
      c ++ (match ov2 with | some w => rem w | none => []) = rem v ∧
      (∀ w, ov2 = some w → size w < size v))
    (fuel : Nat) (hfuel : 0 < fuel)
    (hfuelv : ∀ v, ov = some v → size v + 1 < fuel) :
    (cat V source rootId range fuel).final = .finished ∧
    okBytes (cat V source rootId range fuel).items = targetBytes file range ∧
    ∀ a b : Nat, range = some ⟨a, b⟩ → b ≤ file.length →
      (okBytes (cat V source rootId range fuel).items).length = b - a ∧
      okBytes (cat V source rootId range fuel).items =
        ((targetBytes file none).drop a).take (b - a) := by
  have main : (cat V source rootId range fuel).final = .finished ∧
      okBytes (cat V source rootId range fuel).items =
        targetBytes file range := by
    obtain ⟨f, rfl⟩ : ∃ f, fuel = f + 1 := ⟨fuel - 1, by omega⟩
    rw [cat, catRun_succ V source rootId range f .idle (Or.inl rfl),
      catStep_idle_ok V source rootId range hroot hstart]
    cases ov with
    | none =>
      rw [show ((⟨if c₀.isEmpty then [] else [.ok c₀],
          (match (none : Option σ) with
            | some w => DriverState.active w | none => .finished),
          [rootId], 1⟩ : StepOut σ ε φ)).next = .finished from rfl,
        catRun_finished]
      refine ⟨rfl, ?_⟩
      show okBytes ((if c₀.isEmpty then [] else [.ok c₀]) ++ []) =
        targetBytes file range
      rw [okBytes_append, okBytes_emit]
      simpa [okBytes] using hsplit
    | some v =>
      rw [show ((⟨if c₀.isEmpty then [] else [.ok c₀],
          (match (some v : Option σ) with
            | some w => DriverState.active w | none => .finished),
          [rootId], 1⟩ : StepOut σ ε φ)).next = .active v from rfl]
      obtain ⟨hfin, hbytes⟩ :=
        catRun_active_exact V source rootId range rem size hstep f v
          (by have := hfuelv v rfl; omega)
      refine ⟨hfin, ?_⟩
      show okBytes ((if c₀.isEmpty then [] else [.ok c₀]) ++
        (catRun V source rootId range f (.active v)).items) =
        targetBytes file range
      rw [okBytes_append, okBytes_emit, hbytes]
      exact hsplit
  refine ⟨main.1, main.2, ?_⟩
  intro a b hr hb
  rw [main.2, hr]
  exact targetBytes_inbounds file a b hb

/-- Claim C2: every item sequence produced by `cat` is a (possibly empty)
list of successful chunks, optionally followed by exactly one error item and
nothing else; a run that ends with the visitor's completion contains no
error item; and once the run has terminated (failed or finished), granting
more fuel yields no further item. -/
theorem cat_items_wellformed (fuel : Nat) :
    (∃ oks : List (List Nat),
      (cat V source rootId range fuel).items = oks.map Except.ok ∨
      ∃ e : TraversalFailed ε φ,
        (cat V source rootId range fuel).items =
          oks.map Except.ok ++ [.error e]) ∧
    ((cat V source rootId range fuel).final = .finished →
      ∃ oks : List (List Nat),
        (cat V source rootId range fuel).items = oks.map Except.ok) ∧
    (∀ d : Nat,
      (cat V source rootId range fuel).final = .failed ∨
        (cat V source rootId range fuel).final = .finished →
      (cat V source rootId range (fuel + d)).items =
        (cat V source rootId range fuel).items) := by
  refine ⟨?_, ?_, ?_⟩
  · rcases catRun_shape V source rootId range fuel .idle (fun h => by cases h)
      with ⟨oks, hoks, _⟩ | ⟨oks, e, hoks, _⟩
    · exact ⟨oks, Or.inl hoks⟩
    · exact ⟨oks, Or.inr ⟨e, hoks⟩⟩
  · intro hfin
    rcases catRun_shape V source rootId range fuel .idle (fun h => by cases h)
      with ⟨oks, hoks, _⟩ | ⟨oks, e, hoks, hfail⟩
    · exact ⟨oks, hoks⟩
    · have hfin2 : (catRun V source rootId range fuel .idle).final =
          .finished := hfin
      rw [hfin2] at hfail
      cases hfail
  · intro d h
    simp only [cat] at h ⊢
    rw [catRun_add]
    rcases h with h | h
    · rw [h, catRun_failed]
      simp [RunOut.seq]
    · rw [h, catRun_finished]
      simp [RunOut.seq]

/-- Claim C3: when the root block fetch fails with cause `e`, `cat` yields
exactly one item — the error `Loading(rootId, e)` — and ends; no visitor
stepping call is performed and no identifier other than the root is ever
fetched. -/
theorem cat_root_load_failure (e : ε)
    (he : source rootId = .error e) (fuel : Nat) (hf : 0 < fuel) :
    (cat V source rootId range fuel).items =
      [.error (.Loading rootId e)] ∧
    (cat V source rootId range fuel).final = .failed ∧
    (cat V source rootId range fuel).fetched = [rootId] ∧
    (cat V source rootId range fuel).visitorCalls = 0 := by
  obtain ⟨f, rfl⟩ : ∃ f, fuel = f + 1 := ⟨fuel - 1, by omega⟩
  rw [cat, catRun_succ V source rootId range f .idle (Or.inl rfl),
    catStep_idle_loadErr V source rootId range he]
  rw [show ((⟨[.error (.Loading rootId e)], .failed, [rootId], 0⟩ :
      StepOut σ ε φ)).next = .failed from rfl, catRun_failed]
  refine ⟨?_, rfl, ?_, rfl⟩ <;> simp [RunOut.seq]

/-- Claim C4: when the driver has reached an active visitor state after `k`
steps and the continuation step on the next fetched (non-root) block fails,
the full run yields exactly the successful chunks produced so far, then
exactly one `Walking` error carrying that block's identifier, then ends. -/
theorem cat_walk_failure_mid (k fuel : Nat) (v : σ) (blk : Block) (cause : φ)
    (hk : (catRun V source rootId range k .idle).final = .active v)
    (hfetch : source (V.pendingLinks v).1 = .ok blk)
    (hwalk : V.continueWalk v blk.data = .error cause)
    (hfuel : k < fuel) :
    ∃ oks : List (List Nat),
      (catRun V source rootId range k .idle).items = oks.map Except.ok ∧
      (cat V source rootId range fuel).items =
        oks.map Except.ok ++ [.error (.Walking blk.cid cause)] ∧
      (cat V source rootId range fuel).final = .failed := by
  obtain ⟨oks, hoks⟩ : ∃ oks : List (List Nat),
      (catRun V source rootId range k .idle).items = oks.map Except.ok := by
    rcases catRun_shape V source rootId range k .idle (fun h => by cases h)
      with ⟨oks, hoks, _⟩ | ⟨oks, e, _, hfail⟩
    · exact ⟨oks, hoks⟩
    · rw [hk] at hfail
      cases hfail
  have key : (cat V source rootId range fuel).items =
      oks.map Except.ok ++ [.error (.Walking blk.cid cause)] ∧
      (cat V source rootId range fuel).final = .failed := by
    rw [cat, show fuel = k + (fuel - k) from by omega, catRun_add, hk]
    obtain ⟨d, hd⟩ : ∃ d, fuel - k = d + 1 := ⟨fuel - k - 1, by omega⟩
    rw [hd, catRun_succ V source rootId range d (.active v) (Or.inr ⟨v, rfl⟩),
      catStep_active_walkErr V source rootId range hfetch hwalk]
    rw [show ((⟨[.error (.Walking blk.cid cause)], .failed,
        [(V.pendingLinks v).1], 1⟩ : StepOut σ ε φ)).next = .failed from rfl,
      catRun_failed]
    constructor
    · simp [RunOut.seq, hoks]
    · simp [RunOut.seq]
  exact ⟨oks, hoks, key.1, key.2⟩

/-- Claim C5: no successful item yielded by `cat` is ever the empty chunk,
for every input and every visitor behaviour. -/
theorem cat_no_empty_chunk (fuel : Nat) (c : List Nat)
    (hc : Except.ok c ∈ (cat V source rootId range fuel).items) : c ≠ [] :=
  catRun_ok_nonempty V source rootId range fuel .idle c hc

/-- Claim C6: one driver step fetches at most one block, performs at most one
visitor stepping call, yields at most one item, and from an active state it
fetches exactly the first pending link reported by the visitor, deferring
the remaining pending links. -/
theorem catStep_single_fetch (st : DriverState σ) :
    (catStep V source rootId range st).fetched.length ≤ 1 ∧
    (catStep V source rootId range st).visitorCalls ≤ 1 ∧
    (catStep V source rootId range st).items.length ≤ 1 ∧
    ∀ v : σ, st = .active v →
      (catStep V source rootId range st).fetched =
        [(V.pendingLinks v).1] := by
  cases st with
  | finished =>
    exact ⟨by simp [catStep], by simp [catStep], by simp [catStep],
      fun v h => by cases h⟩
  | failed =>
    exact ⟨by simp [catStep], by simp [catStep], by simp [catStep],
      fun v h => by cases h⟩
  | idle =>
    refine ⟨?_, ?_, ?_, fun v h => by cases h⟩ <;>
    · cases hs : source rootId with
      | error e => simp [catStep_idle_loadErr V source rootId range hs]
      | ok blk =>
        cases hv : V.start range blk.data with
        | error e => simp [catStep_idle_startErr V source rootId range hs hv]
        | ok out =>
          obtain ⟨bytes, m, ov⟩ := out
          by_cases hb : bytes.isEmpty <;>
            simp [catStep_idle_ok V source rootId range hs hv, hb]
  | active v =>
    have hf : (catStep V source rootId range (.active v)).fetched =
        [(V.pendingLinks v).1] := by
      cases hs : source (V.pendingLinks v).1 with
      | error e => rw [catStep_active_loadErr V source rootId range hs]
      | ok blk =>
        cases hv : V.continueWalk v blk.data with
        | error e => rw [catStep_active_walkErr V source rootId range hs hv]
        | ok out =>
          obtain ⟨bytes, ov⟩ := out
          rw [catStep_active_ok V source rootId range hs hv]
    refine ⟨by rw [hf]; simp, ?_, ?_, fun w h => by cases h; exact hf⟩ <;>
    · cases hs : source (V.pendingLinks v).1 with
      | error e => simp [catStep_active_loadErr V source rootId range hs]
      | ok blk =>
        cases hv : V.continueWalk v blk.data with
        | error e =>
          simp [catStep_active_walkErr V source rootId range hs hv]
        | ok out =>
          obtain ⟨bytes, ov⟩ := out
          by_cases hb : bytes.isEmpty <;>
            simp [catStep_active_ok V source rootId range hs hv, hb]

/-- Claim C7: `cat` is deterministic — two invocations with the same root,
range and visitor against block sources that answer identically on every
identifier produce identical outcomes, item for item. -/
theorem cat_deterministic (s₁ s₂ : BlockSource ε) (fuel : Nat)
    (hagree : ∀ c : Cid, s₁ c = s₂ c) :
    cat V s₁ rootId range fuel = cat V s₂ rootId range fuel := by
  have hs : s₁ = s₂ := funext hagree
  rw [hs]

/-- Claim C8: the error-source accessor of `TraversalFailed` exposes the
structured cause of a `Walking` value and returns none for a `Loading`
value, whose cause stays opaque. -/
theorem traversal_failed_source (id : Cid) (eL : ε) (eW : φ) :
    (TraversalFailed.Walking id eW : TraversalFailed ε φ).source = some eW ∧
    (TraversalFailed.Loading id eL : TraversalFailed ε φ).source = none :=
  ⟨rfl, rfl⟩

/-- Claim C9: in the traversal loop, a `Loading` error carries the
identifier the driver requested (the first pending link), while a `Walking`
error carries the identifier echoed in the block source's response — the cid
field of the returned block — which coincides with the requested one only
when the block source echoes it. -/
theorem cat_error_cid_attribution (v : σ) :
    (∀ e : ε, source (V.pendingLinks v).1 = .error e →
      (catStep V source rootId range (.active v)).items =
        [.error (.Loading (V.pendingLinks v).1 e)]) ∧
    (∀ (blk : Block) (cause : φ), source (V.pendingLinks v).1 = .ok blk →
      V.continueWalk v blk.data = .error cause →
      (catStep V source rootId range (.active v)).items =
        [.error (.Walking blk.cid cause)]) := by
  constructor
  · intro e hs
    rw [catStep_active_loadErr V source rootId range hs]
  · intro blk cause hs hv
    rw [catStep_active_walkErr V source rootId range hs hv]

/-- Claim C10: when the visitor's start step on the root block succeeds with
an empty chunk and no continuation, `cat` terminates successfully having
yielded zero items. -/
theorem cat_empty_sequence (blk : Block) (m : μ)
    (hroot : source rootId = .ok blk)
    (hstart : V.start range blk.data = .ok ([], m, none))
    (fuel : Nat) (hf : 0 < fuel) :
    (cat V source rootId range fuel).items = [] ∧
    (cat V source rootId range fuel).final = .finished := by
  obtain ⟨f, rfl⟩ : ∃ f, fuel = f + 1 := ⟨fuel - 1, by omega⟩
  rw [cat, catRun_succ V source rootId range f .idle (Or.inl rfl),
    catStep_idle_ok V source rootId range hroot hstart]
  rw [show ((⟨if ([] : List Nat).isEmpty then [] else [.ok []],
      (match (none : Option σ) with
        | some w => DriverState.active w | none => .finished),
      [rootId], 1⟩ : StepOut σ ε φ)).next = .finished from rfl,
    catRun_finished]
  exact ⟨by simp [RunOut.seq], rfl⟩

end Lemmas

/-- Example visitor for concrete runs: the root yields chunk `[10, 20]` and
one continuation; the continuation step yields `[30, 40]` and completes. -/
def exVisitor : DagVisitor Unit Unit Unit Unit where
  start := fun _ _ => .ok ([10, 20], (), some ())
  pendingLinks := fun _ => (1, [])
  continueWalk := fun _ _ => .ok ([30, 40], none)

/-- Visitor for a ranged request `[1, 3)` over the file `[10, 20, 30, 40]`:
chunks are each node's bytes restricted to the range. -/
def exRangeVisitor : DagVisitor Unit Unit Unit Unit where
  start := fun _ _ => .ok ([20], (), some ())
  pendingLinks := fun _ => (1, [])
  continueWalk := fun _ _ => .ok ([30], none)

/-- Visitor whose continuation step always fails. -/
def exWalkFailVisitor : DagVisitor Unit Unit Unit Unit where
  start := fun _ _ => .ok ([10, 20], (), some ())
  pendingLinks := fun _ => (1, [])
  continueWalk := fun _ _ => .error ()

/-- Visitor that completes on the root with an empty chunk and no
continuation. -/
def exEmptyVisitor : DagVisitor Unit Unit Unit Unit where
  start := fun _ _ => .ok ([], (), none)
  pendingLinks := fun _ => (0, [])
  continueWalk := fun _ _ => .ok ([], none)

/-- Example block source: identifier 0 is the root block, every other
request returns block 1. -/
def exSource : BlockSource Unit := fun c =>
  if c = 0 then .ok ⟨0, [99]⟩ else .ok ⟨1, [98]⟩

/-- Block source written differently from `exSource` but answering
identically on every identifier. -/
def exSourceB : BlockSource Unit := fun c =>
  if c = 0 then .ok ⟨0, [99]⟩ else .ok ⟨0 + 1, [98]⟩

/-- Block source that fails on every request. -/
def exFailSource : BlockSource Unit := fun _ => .error ()

/-- Block source that echoes identifier 7 for every non-root request,
differing from the requested identifier. -/
def exEchoSource : BlockSource Unit := fun c =>
  if c = 0 then .ok ⟨0, [99]⟩ else .ok ⟨7, [98]⟩

/-- Witness for `cat_range_exact`: a two-block file `[10, 20, 30, 40]` read
with range `[1, 3)`. -/
theorem cat_range_exact_witness :
    (cat exRangeVisitor exSource 0 (some ⟨1, 3⟩) 2).final = .finished ∧
    okBytes (cat exRangeVisitor exSource 0 (some ⟨1, 3⟩) 2).items =
      targetBytes [10, 20, 30, 40] (some ⟨1, 3⟩) ∧
    ∀ a b : Nat, (some ⟨1, 3⟩ : Option ByteRange) = some ⟨a, b⟩ →
      b ≤ [10, 20, 30, 40].length →
      (okBytes
        (cat exRangeVisitor exSource 0 (some ⟨1, 3⟩) 2).items).length =
          b - a ∧
      okBytes (cat exRangeVisitor exSource 0 (some ⟨1, 3⟩) 2).items =
        ((targetBytes [10, 20, 30, 40] none).drop a).take (b - a) :=
  cat_range_exact exRangeVisitor exSource 0 (some ⟨1, 3⟩) [10, 20, 30, 40]
    (fun _ => [30]) (fun _ => 0) ⟨0, [99]⟩ [20] () (some ())
    rfl rfl rfl
    (fun _ => ⟨⟨1, [98]⟩, [30], none, rfl, rfl, rfl, fun w hw => by cases hw⟩)
    2 (by decide) (fun v hv => Nat.one_lt_two)

/-- Witness for `cat_items_wellformed` at a concrete run. -/
theorem cat_items_wellformed_witness :
    (∃ oks : List (List Nat),
      (cat exVisitor exSource 0 none 3).items = oks.map Except.ok ∨
      ∃ e : TraversalFailed Unit Unit,
        (cat exVisitor exSource 0 none 3).items =
          oks.map Except.ok ++ [.error e]) ∧
    ((cat exVisitor exSource 0 none 3).final = .finished →
      ∃ oks : List (List Nat),
        (cat exVisitor exSource 0 none 3).items = oks.map Except.ok) ∧
    (∀ d : Nat,
      (cat exVisitor exSource 0 none 3).final = .failed ∨
        (cat exVisitor exSource 0 none 3).final = .finished →
      (cat exVisitor exSource 0 none (3 + d)).items =
        (cat exVisitor exSource 0 none 3).items) :=
  cat_items_wellformed exVisitor exSource 0 none 3

/-- Witness for `cat_root_load_failure`. -/
theorem cat_root_load_failure_witness :
    (cat exVisitor exFailSource 0 none 5).items =
      [.error (.Loading 0 ())] ∧
    (cat exVisitor exFailSource 0 none 5).final = .failed ∧
    (cat exVisitor exFailSource 0 none 5).fetched = [0] ∧
    (cat exVisitor exFailSource 0 none 5).visitorCalls = 0 :=
  cat_root_load_failure exVisitor exFailSource 0 none () rfl 5 (by decide)

/-- Witness for `cat_walk_failure_mid`: the root chunk is yielded, then the
continuation fails on block 1. -/
theorem cat_walk_failure_mid_witness :
    ∃ oks : List (List Nat),
      (catRun exWalkFailVisitor exSource 0 none 1 .idle).items =
        oks.map Except.ok ∧
      (cat exWalkFailVisitor exSource 0 none 3).items =
        oks.map Except.ok ++ [.error (.Walking 1 ())] ∧
      (cat exWalkFailVisitor exSource 0 none 3).final = .failed :=
  cat_walk_failure_mid exWalkFailVisitor exSource 0 none 1 3 () ⟨1, [98]⟩ ()
    rfl rfl rfl (by decide)

/-- Witness for `cat_no_empty_chunk` at a chunk of a concrete run. -/
theorem cat_no_empty_chunk_witness :
    Except.ok [10, 20] ∈ (cat exVisitor exSource 0 none 3).items ∧
    [10, 20] ≠ ([] : List Nat) :=
  ⟨List.mem_cons_self _ _,
    cat_no_empty_chunk exVisitor exSource 0 none 3 [10, 20]
      (List.mem_cons_self _ _)⟩

/-- Witness for `catStep_single_fetch` at a concrete active state. -/
theorem catStep_single_fetch_witness :
    (catStep exVisitor exSource 0 none (.active ())).fetched.length ≤ 1 ∧
    (catStep exVisitor exSource 0 none (.active ())).visitorCalls ≤ 1 ∧
    (catStep exVisitor exSource 0 none (.active ())).items.length ≤ 1 ∧
    ∀ v : Unit, (DriverState.active () : DriverState Unit) = .active v →
      (catStep exVisitor exSource 0 none (.active ())).fetched =
        [(exVisitor.pendingLinks v).1] :=
  catStep_single_fetch exVisitor exSource 0 none (.active ())

/-- Witness for `cat_deterministic`: two syntactically different but
pointwise-equal block sources. -/
theorem cat_deterministic_witness :
    cat exVisitor exSource 0 none 3 = cat exVisitor exSourceB 0 none 3 :=
  cat_deterministic exVisitor 0 none exSource exSourceB 3 (fun _ => rfl)

/-- Witness for `traversal_failed_source` at concrete values. -/
theorem traversal_failed_source_witness :
    (TraversalFailed.Walking 3 7 : TraversalFailed Nat Nat).source = some 7 ∧
    (TraversalFailed.Loading 3 5 : TraversalFailed Nat Nat).source = none :=
  traversal_failed_source 3 5 7

/-- Witness for `cat_error_cid_attribution`: the requested link is 1; the
`Loading` error carries 1, while the `Walking` error carries the echoed
identifier 7. -/
theorem cat_error_cid_attribution_witness :
    (catStep exWalkFailVisitor exFailSource 0 none (.active ())).items =
      [.error (.Loading 1 ())] ∧
    (catStep exWalkFailVisitor exEchoSource 0 none (.active ())).items =
      [.error (.Walking 7 ())] :=
  ⟨(cat_error_cid_attribution exWalkFailVisitor exFailSource 0 none ()).1
      () rfl,
    (cat_error_cid_attribution exWalkFailVisitor exEchoSource 0 none ()).2
      ⟨7, [98]⟩ () rfl rfl⟩

/-- Witness for `cat_empty_sequence`. -/
theorem cat_empty_sequence_witness :
    (cat exEmptyVisitor exSource 0 none 4).items = [] ∧
    (cat exEmptyVisitor exSource 0 none 4).final = .finished :=
  cat_empty_sequence exEmptyVisitor exSource 0 none ⟨0, [99]⟩ () rfl rfl 4
    (by decide)

end RustIpfs
